import Mathlib

/-!
Shallow embedding of the tag-cache component and small validation utilities
of `sb.py` (saltyorg/sb), together with theorems settling the specification
claims about them.

Conventions of the embedding:
* The persisted cache file (`SB_CACHE_FILE`) is modelled by `CacheFile`:
  it can be absent (`open` raises `FileNotFoundError`), present but
  unreadable (`open` raises `PermissionError`, which the code does not
  catch), present but not valid JSON (`json.load` raises
  `JSONDecodeError`, which the code does not catch), or present with a
  parsed mapping from repository path to `{commit, tags}` entries.
* Python dictionaries are modelled by association lists that keep
  insertion order, mirroring CPython dict semantics: assignment replaces
  an existing binding in place and appends a new key at the end.
* Fallible Python code (uncaught exceptions) is modelled with `Except
  String`, the error string naming the Python exception.
-/

/-- A parsed cache entry `{"commit": ..., "tags": [...]}` as written by
`update_cache`. -/
structure CacheEntry where
  commit : String
  tags : List String
deriving DecidableEq, Repr

/-- The observable states of the cache file at `SB_CACHE_FILE`. -/
inductive CacheFile where
  /-- The file does not exist: `open` raises `FileNotFoundError`. -/
  | missing : CacheFile
  /-- The file exists but cannot be read: `open` raises `PermissionError`. -/
  | unreadable : CacheFile
  /-- The file exists and is readable but `json.load` fails. -/
  | malformed : CacheFile
  /-- The file parses to a mapping from repo path to entry. -/
  | present : List (String × CacheEntry) → CacheFile
deriving DecidableEq, Repr

/-- Dictionary lookup `cache.get(repo_path, {})`; `none` models the empty
dictionary default. -/
def lookupEntry : List (String × CacheEntry) → String → Option CacheEntry
  | [], _ => none
  | (k, v) :: rest, key => if k = key then some v else lookupEntry rest key

/-- Dictionary assignment `cache[repo_path] = entry`: replaces an existing
binding in place, otherwise appends the new binding at the end
(CPython insertion order). -/
def insertEntry : List (String × CacheEntry) → String → CacheEntry → List (String × CacheEntry)
  | [], key, v => [(key, v)]
  | (k, w) :: rest, key, v =>
    if k = key then (key, v) :: rest else (k, w) :: insertEntry rest key v

/-- `get_cached_tags(repo_path)` from `sb.py`: opens `SB_CACHE_FILE`,
parses it with `json.load`, and returns `cache.get(repo_path, {})`.
Only `FileNotFoundError` is caught (returning the empty dictionary,
modelled `none`); a permission error on `open` or a JSON decode error
propagates. -/
def get_cached_tags (file : CacheFile) (repo_path : String) :
    Except String (Option CacheEntry) :=
  match file with
  | .missing => .ok none
  | .unreadable => .error "PermissionError"
  | .malformed => .error "JSONDecodeError"
  | .present cache => .ok (lookupEntry cache repo_path)

/-- `update_cache(repo_path, commit_hash, tags)` from `sb.py`: reads the
whole mapping (an absent file is treated as the empty mapping; other read
or parse failures propagate), assigns
`cache[repo_path] = {"commit": commit_hash, "tags": tags}`, and writes the
mapping back. The result is the new file state. -/
def update_cache (file : CacheFile) (repo_path commit_hash : String)
    (tags : List String) : Except String CacheFile :=
  match file with
  | .missing => .ok (.present (insertEntry [] repo_path ⟨commit_hash, tags⟩))
  | .unreadable => .error "PermissionError"
  | .malformed => .error "JSONDecodeError"
  | .present cache =>
      .ok (.present (insertEntry cache repo_path ⟨commit_hash, tags⟩))

/-- `check_cache(repo_path, tags)` from `sb.py`: looks up the entry for
`repo_path`; an empty result (`if not cache`) short-circuits to
`(True, [])`; otherwise the missing tags are the set difference
`set(tags) - set(cache["tags"])` and the boolean is `not missing_tags`.
Python sets are modelled by `Finset String` (the returned list order is
unspecified hash order in Python). -/
def check_cache (file : CacheFile) (repo_path : String) (tags : List String) :
    Except String (Bool × Finset String) :=
  match get_cached_tags file repo_path with
  | .error e => .error e
  | .ok none => .ok (true, ∅)
  | .ok (some cache) =>
      let cached_tags : Finset String := cache.tags.toFinset
      let requested_tags : Finset String := tags.toFinset
      let missing_tags : Finset String := requested_tags \ cached_tags
      .ok (decide (missing_tags = ∅), missing_tags)

/-- Constant `SALTBOXMOD_REPO_PATH` from `sb.py`. -/
def SALTBOXMOD_REPO_PATH : String := "/opt/saltbox_mod"

/-- Constant `ANSIBLE_PLAYBOOK_BINARY_PATH` from `sb.py`. -/
def ANSIBLE_PLAYBOOK_BINARY_PATH : String := "/usr/local/bin/ansible-playbook"

/-- The decision made by `prepare_ansible_list_tags(repo_path,
playbook_path, extra_skip_tags)` in `sb.py`: either reuse the cached tags
(the function returns `None` as command) or return the
`ansible-playbook --list-tags` command to run. `current_commit` is the
value of the external call `get_git_commit_hash(repo_path)`. For
`SALTBOXMOD_REPO_PATH` the cache is never consulted; otherwise the cached
tags are reused exactly when `cache.get("commit") == current_commit`
(`None == current_commit` is false for the string `current_commit`). -/
def prepare_ansible_list_tags (file : CacheFile)
    (repo_path playbook_path extra_skip_tags current_commit : String) :
    Except String (Option (List String)) :=
  let command : List String :=
    [ANSIBLE_PLAYBOOK_BINARY_PATH, playbook_path, "--become", "--list-tags",
      "--skip-tags=always," ++ extra_skip_tags]
  if repo_path = SALTBOXMOD_REPO_PATH then
    .ok (some command)
  else
    match get_cached_tags file repo_path with
    | .error e => .error e
    | .ok cache =>
        match cache with
        | some entry =>
            if entry.commit = current_commit then .ok none
            else .ok (some command)
        | none => .ok (some command)

/-- `v.lstrip('v')` in `version_compare`: removes every leading `'v'`
character. -/
def lstripV (s : String) : String := ⟨s.data.dropWhile (fun c => c = 'v')⟩

/-- Python `"a.b".split('.')` over a character list: splits at every `'.'`,
keeping empty pieces (so `""` splits to `[""]`). -/
def splitDot : List Char → List (List Char)
  | [] => [[]]
  | c :: cs =>
    if c = '.' then [] :: splitDot cs
    else
      match splitDot cs with
      | [] => [[c]]
      | p :: ps => (c :: p) :: ps

/-- `int(part)` on a version component. The components reachable here are
plain decimal-digit strings (the claims quantify over dot-separated decimal
integers), for which `int` yields the denoted natural number; anything else
raises `ValueError`. -/
def pyIntPart (cs : List Char) : Except String Int :=
  if cs ≠ [] ∧ cs.all Char.isDigit then
    .ok ((cs.foldl (fun n c => 10 * n + (c.toNat - 48)) 0 : Nat) : Int)
  else .error "ValueError"

/-- The tail of the `version_compare` loop once `v2` is exhausted: each
remaining `v1` component is compared against `0`. -/
def cmpLeft : List (List Char) → Except String Int
  | [] => .ok 0
  | p :: ps =>
    match pyIntPart p with
    | .error e => .error e
    | .ok a =>
      if a < 0 then .ok (-1)
      else if a > 0 then .ok 1
      else cmpLeft ps

/-- The tail of the `version_compare` loop once `v1` is exhausted: `0` is
compared against each remaining `v2` component. -/
def cmpRight : List (List Char) → Except String Int
  | [] => .ok 0
  | q :: qs =>
    match pyIntPart q with
    | .error e => .error e
    | .ok b =>
      if (0 : Int) < b then .ok (-1)
      else if b < 0 then .ok 1
      else cmpRight qs

/-- The loop of `version_compare`: for each index up to the longer list,
missing components count as `0`; return `-1`/`1` at the first strictly
smaller/greater component, `0` if the lists are exhausted. -/
def cmpParts : List (List Char) → List (List Char) → Except String Int
  | ps, [] => cmpLeft ps
  | [], qs => cmpRight qs
  | p :: ps, q :: qs =>
    match pyIntPart p with
    | .error e => .error e
    | .ok a =>
      match pyIntPart q with
      | .error e => .error e
      | .ok b =>
        if a < b then .ok (-1)
        else if a > b then .ok 1
        else cmpParts ps qs

/-- `version_compare(v1, v2)` from `sb.py`: strip leading `'v'`s, split on
`'.'`, compare componentwise with missing components as zero. -/
def version_compare (v1 v2 : String) : Except String Int :=
  cmpParts (splitDot (lstripV v1).data) (splitDot (lstripV v2).data)

/-- Constant `SALTBOX_ACCOUNTS_PATH` from `sb.py`. -/
def SALTBOX_ACCOUNTS_PATH : String := "/srv/git/saltbox/accounts.yml"

/-- The parsed YAML mapping handed to `validate_structure`, modelled by
what the function observes: the top-level keys and, for each, the keys of
its sub-mapping (the function only performs `in` membership tests). -/
def YamlDict := List (String × List String)

/-- `key in dict_data` for the top level. -/
def hasTopKey (d : List (String × List String)) (key : String) : Bool :=
  d.any (fun kv => kv.1 = key)

/-- The keys of `dict_data[key]`. -/
def subKeys : List (String × List String) → String → List String
  | [], _ => []
  | (k, v) :: rest, key => if k = key then v else subKeys rest key

/-- The message for a missing required section. -/
def missingSectionMsg (key : String) : String :=
  "Config file '" ++ SALTBOX_ACCOUNTS_PATH ++ "' is missing " ++
    "required section: '" ++ key ++ "'"

/-- The message for a missing required key inside a section. -/
def missingKeyMsg (subkey key : String) : String :=
  "Config file '" ++ SALTBOX_ACCOUNTS_PATH ++ "' is missing " ++
    "required key '" ++ subkey ++ "' in section '" ++ key ++ "'"

/-- The inner loop of `validate_structure`: the first `subkey` of
`subkeys` not present in section `key` produces the failure tuple. -/
def checkSubkeys (present : List String) (key : String) :
    List String → Option (Bool × String)
  | [] => none
  | sk :: rest =>
    if (present.contains sk : Bool) then checkSubkeys present key rest
    else some (false, missingKeyMsg sk key)

/-- `validate_structure(dict_data)` from `sb.py` with
`required_keys = {"user": ["domain", "email", "name", "pass"]}`: checks
that the section and each of its keys are present, returning at the first
failure, else `(True, "Valid structure")`. -/
def validate_structure (dict_data : List (String × List String)) :
    Bool × String :=
  let key := "user"
  let subkeys := ["domain", "email", "name", "pass"]
  if ¬ (hasTopKey dict_data key : Bool) then
    (false, missingSectionMsg key)
  else
    match checkSubkeys (subKeys dict_data key) key subkeys with
    | some r => r
    | none => (true, "Valid structure")

deriving instance DecidableEq for Except

/-- The entry persisted under a key in a given cache-file state (`none`
when the file is absent, unusable, or has no binding for the key). -/
def storedEntry : CacheFile → String → Option CacheEntry
  | .present cache, key => lookupEntry cache key
  | _, _ => none

/-! ### Association-list lemmas about the cache mapping -/

theorem lookupEntry_insertEntry_self (m : List (String × CacheEntry))
    (k : String) (v : CacheEntry) :
    lookupEntry (insertEntry m k v) k = some v := by
  induction m with
  | nil => simp [insertEntry, lookupEntry]
  | cons kv rest ih =>
      obtain ⟨k₀, w⟩ := kv
      by_cases h : k₀ = k
      · subst h
        simp [insertEntry, lookupEntry]
      · simp [insertEntry, lookupEntry, h, ih]

theorem lookupEntry_insertEntry_ne (m : List (String × CacheEntry))
    (k k' : String) (v : CacheEntry) (h : k' ≠ k) :
    lookupEntry (insertEntry m k v) k' = lookupEntry m k' := by
  induction m with
  | nil => simp [insertEntry, lookupEntry, Ne.symm h]
  | cons kv rest ih =>
      obtain ⟨k₀, w⟩ := kv
      by_cases h₀ : k₀ = k
      · subst h₀
        simp [insertEntry, lookupEntry, Ne.symm h]
      · simp [insertEntry, lookupEntry, h₀, ih]

theorem insertEntry_insertEntry_self (m : List (String × CacheEntry))
    (k : String) (v : CacheEntry) :
    insertEntry (insertEntry m k v) k v = insertEntry m k v := by
  induction m with
  | nil => simp [insertEntry]
  | cons kv rest ih =>
      obtain ⟨k₀, w⟩ := kv
      by_cases h : k₀ = k
      · subst h
        simp [insertEntry]
      · simp [insertEntry, h, ih]

/-! ### Claim theorems about the cache -/

/-- C1: for every repo path, commit hash, and tag list, after
`update_cache(repo_path, commit_hash, tags)` succeeds, a subsequent
`get_cached_tags(repo_path)` returns exactly the entry
`{commit: commit_hash, tags: tags}`. -/
theorem update_cache_then_get (file file' : CacheFile)
    (repo_path commit_hash : String) (tags : List String)
    (h : update_cache file repo_path commit_hash tags = Except.ok file') :
    get_cached_tags file' repo_path =
      Except.ok (some ⟨commit_hash, tags⟩) := by
  cases file with
  | missing =>
      simp only [update_cache, Except.ok.injEq] at h
      subst h
      simp [get_cached_tags, lookupEntry_insertEntry_self]
  | unreadable => simp [update_cache] at h
  | malformed => simp [update_cache] at h
  | present m =>
      simp only [update_cache, Except.ok.injEq] at h
      subst h
      simp [get_cached_tags, lookupEntry_insertEntry_self]

theorem update_cache_then_get_witness :
    get_cached_tags
        (CacheFile.present [("/srv/git/saltbox", ⟨"abc123", ["tag1", "tag2"]⟩)])
        "/srv/git/saltbox" =
      Except.ok (some ⟨"abc123", ["tag1", "tag2"]⟩) :=
  update_cache_then_get CacheFile.missing _ "/srv/git/saltbox" "abc123"
    ["tag1", "tag2"] (by decide)

/-- C4: `update_cache(repo_path, commit_hash, tags)` modifies only the
entry for `repo_path`: the entry stored under any other path after a
successful call equals the entry stored under it before the call. -/
theorem update_cache_frame (file file' : CacheFile)
    (repo_path commit_hash other : String) (tags : List String)
    (h : update_cache file repo_path commit_hash tags = Except.ok file')
    (hne : other ≠ repo_path) :
    storedEntry file' other = storedEntry file other := by
  cases file with
  | missing =>
      simp only [update_cache, Except.ok.injEq] at h
      subst h
      simp [storedEntry, lookupEntry_insertEntry_ne _ _ _ _ hne, lookupEntry,
        Ne.symm hne]
  | unreadable => simp [update_cache] at h
  | malformed => simp [update_cache] at h
  | present m =>
      simp only [update_cache, Except.ok.injEq] at h
      subst h
      simp [storedEntry, lookupEntry_insertEntry_ne _ _ _ _ hne]

theorem update_cache_frame_witness :
    storedEntry
        (CacheFile.present [("B", ⟨"h0", ["t"]⟩), ("A", ⟨"h1", ["u"]⟩)]) "B" =
      storedEntry (CacheFile.present [("B", ⟨"h0", ["t"]⟩)]) "B" :=
  update_cache_frame (CacheFile.present [("B", ⟨"h0", ["t"]⟩)]) _ "A" "h1" "B"
    ["u"] (by decide) (by decide)

/-- C5 (amended): `get_cached_tags` returns the empty entry and raises no
exception when the cache file is missing (`FileNotFoundError` is caught),
but an existing yet unreadable cache file raises: the `PermissionError`
from `open` is not caught, so "unreadable" is not treated as empty. -/
theorem get_cached_tags_missing_silent (repo_path : String) :
    get_cached_tags CacheFile.missing repo_path = Except.ok none ∧
      get_cached_tags CacheFile.unreadable repo_path =
        Except.error "PermissionError" :=
  ⟨rfl, rfl⟩

/-- C5 counterexample: with an existing but unreadable cache file, the
claim that `get_cached_tags` "returns an empty entry and raises no
exception" is false: the call propagates `PermissionError` instead of
returning the empty entry. -/
theorem get_cached_tags_unreadable_cex :
    get_cached_tags CacheFile.unreadable "/srv/git/saltbox" =
        Except.error "PermissionError" ∧
      get_cached_tags CacheFile.unreadable "/srv/git/saltbox" ≠
        Except.ok none := by
  constructor
  · rfl
  · decide

/-- C6: for a cache file whose content is malformed (not valid JSON),
`get_cached_tags` surfaces the `JSONDecodeError` to the caller rather
than returning an empty cache; malformed content is never treated like a
missing file (which yields `Except.ok none`). -/
theorem get_cached_tags_malformed_raises (repo_path : String) :
    get_cached_tags CacheFile.malformed repo_path =
        Except.error "JSONDecodeError" ∧
      get_cached_tags CacheFile.malformed repo_path ≠
        get_cached_tags CacheFile.missing repo_path := by
  constructor
  · rfl
  · simp [get_cached_tags]

/-- C7: `update_cache` is idempotent: a second call with identical
arguments leaves the persisted mapping produced by the first call
unchanged. -/
theorem update_cache_idempotent (file file' : CacheFile)
    (repo_path commit_hash : String) (tags : List String)
    (h : update_cache file repo_path commit_hash tags = Except.ok file') :
    update_cache file' repo_path commit_hash tags = Except.ok file' := by
  cases file with
  | missing =>
      simp only [update_cache, Except.ok.injEq] at h
      subst h
      simp [update_cache, insertEntry_insertEntry_self]
  | unreadable => simp [update_cache] at h
  | malformed => simp [update_cache] at h
  | present m =>
      simp only [update_cache, Except.ok.injEq] at h
      subst h
      simp [update_cache, insertEntry_insertEntry_self]

theorem update_cache_idempotent_witness :
    update_cache (CacheFile.present [("A", ⟨"h", ["t"]⟩)]) "A" "h" ["t"] =
      Except.ok (CacheFile.present [("A", ⟨"h", ["t"]⟩)]) :=
  update_cache_idempotent CacheFile.missing _ "A" "h" ["t"] (by decide)

/-- C2 (amended): for every repository path other than
`SALTBOXMOD_REPO_PATH`, when the cache read succeeds,
`prepare_ansible_list_tags` decides to reuse the cached tags (returns no
command) exactly when a stored entry exists whose commit equals the
current commit hash; in particular an uncached path is never considered
fresh. -/
theorem prepare_list_tags_fresh_iff (file : CacheFile)
    (repo_path playbook_path extra_skip_tags current_commit : String)
    (cache : Option CacheEntry)
    (hne : repo_path ≠ SALTBOXMOD_REPO_PATH)
    (hget : get_cached_tags file repo_path = Except.ok cache) :
    prepare_ansible_list_tags file repo_path playbook_path extra_skip_tags
        current_commit = Except.ok none ↔
      ∃ entry, cache = some entry ∧ entry.commit = current_commit := by
  simp only [prepare_ansible_list_tags, if_neg hne, hget]
  cases cache with
  | none => simp
  | some entry =>
      by_cases h : entry.commit = current_commit
      · simp [h]
      · simp [h]

theorem prepare_list_tags_fresh_iff_witness :
    prepare_ansible_list_tags (CacheFile.present [("A", ⟨"h", ["x"]⟩)]) "A"
        "pb" "" "h" = Except.ok none ↔
      ∃ entry, (some (⟨"h", ["x"]⟩ : CacheEntry)) = some entry ∧
        entry.commit = "h" :=
  prepare_list_tags_fresh_iff _ "A" "pb" "" "h" (some ⟨"h", ["x"]⟩)
    (by decide) (by decide)

/-- C2 counterexample: for `repo_path = SALTBOXMOD_REPO_PATH` the claimed
equivalence fails: the cache holds an entry for that path whose commit
equals the current commit hash, yet `prepare_ansible_list_tags` still
returns a command instead of reusing the cached tags. -/
theorem prepare_list_tags_saltboxmod_cex :
    (get_cached_tags
        (CacheFile.present [(SALTBOXMOD_REPO_PATH, ⟨"abc", ["x"]⟩)])
        SALTBOXMOD_REPO_PATH = Except.ok (some ⟨"abc", ["x"]⟩)) ∧
      prepare_ansible_list_tags
        (CacheFile.present [(SALTBOXMOD_REPO_PATH, ⟨"abc", ["x"]⟩)])
        SALTBOXMOD_REPO_PATH "/opt/saltbox_mod/saltbox_mod.yml"
        "sanity_check" "abc" ≠ Except.ok none := by
  constructor
  · decide
  · decide

/-- C3: `check_cache` computes the set difference between the requested
tags and the cached tag set, and returns `(True, [])` when no cache entry
exists; consequently a requested subset of the cached tags yields the
empty set, and a single absent tag yields exactly that tag. -/
theorem check_cache_set_difference (file : CacheFile) (repo_path : String)
    (tags : List String) :
    (∀ entry, get_cached_tags file repo_path = Except.ok (some entry) →
        check_cache file repo_path tags =
          Except.ok (decide (tags.toFinset \ entry.tags.toFinset = ∅),
            tags.toFinset \ entry.tags.toFinset)) ∧
    (get_cached_tags file repo_path = Except.ok none →
        check_cache file repo_path tags = Except.ok (true, ∅)) ∧
    (∀ entry, get_cached_tags file repo_path = Except.ok (some entry) →
        tags.toFinset ⊆ entry.tags.toFinset →
        check_cache file repo_path tags = Except.ok (true, ∅)) ∧
    (∀ entry t, get_cached_tags file repo_path = Except.ok (some entry) →
        tags.toFinset \ entry.tags.toFinset = {t} →
        check_cache file repo_path tags =
          Except.ok (false, ({t} : Finset String))) := by
  refine ⟨?_, ?_, ?_, ?_⟩
  · intro entry hget
    simp [check_cache, hget]
  · intro hget
    simp [check_cache, hget]
  · intro entry hget hsub
    simp [check_cache, hget, Finset.sdiff_eq_empty_iff_subset.mpr hsub]
  · intro entry t hget hdiff
    simp [check_cache, hget, hdiff]

theorem check_cache_set_difference_witness :
    check_cache (CacheFile.present [("A", ⟨"abc", ["x", "y"]⟩)]) "A"
        ["x", "z"] = Except.ok (false, ({"z"} : Finset String)) := by
  have h := (check_cache_set_difference
      (CacheFile.present [("A", ⟨"abc", ["x", "y"]⟩)]) "A" ["x", "z"]).1
      ⟨"abc", ["x", "y"]⟩ (by decide)
  exact h.trans (by decide)

/-- C8: every successful result of `check_cache` is internally
consistent: the boolean component is `true` exactly when the returned
missing-tag set is empty, in every branch including the no-cache-entry
branch. -/
theorem check_cache_bool_consistent (file : CacheFile) (repo_path : String)
    (tags : List String) (b : Bool) (missing : Finset String)
    (h : check_cache file repo_path tags = Except.ok (b, missing)) :
    b = true ↔ missing = ∅ := by
  unfold check_cache at h
  cases hget : get_cached_tags file repo_path with
  | error e =>
      rw [hget] at h
      exact absurd h (by simp)
  | ok cache =>
      rw [hget] at h
      cases cache with
      | none =>
          simp only [Except.ok.injEq, Prod.mk.injEq] at h
          obtain ⟨hb, hm⟩ := h
          subst hb
          subst hm
          simp
      | some entry =>
          simp only [Except.ok.injEq, Prod.mk.injEq] at h
          obtain ⟨hb, hm⟩ := h
          subst hb
          subst hm
          simp

theorem check_cache_bool_consistent_witness :
    (true = true ↔ (∅ : Finset String) = ∅) :=
  check_cache_bool_consistent CacheFile.missing "A" ["x"] true ∅ (by decide)

/-! ### Lemmas and claim theorem for `version_compare` -/

theorem pyIntPart_error_eq {cs : List Char} {e : String}
    (h : pyIntPart cs = Except.error e) : e = "ValueError" := by
  unfold pyIntPart at h
  split at h
  · exact absurd h (by simp)
  · injection h with h'
    exact h'.symm

theorem pyIntPart_zero : pyIntPart ['0'] = Except.ok 0 := by decide

theorem cmpParts_nil_left : ∀ qs, cmpParts [] qs = cmpRight qs
  | [] => rfl
  | _ :: _ => rfl

theorem cmpParts_nil_right : ∀ ps, cmpParts ps [] = cmpLeft ps
  | [] => rfl
  | _ :: _ => rfl

theorem cmpRight_map_neg :
    ∀ qs, cmpRight qs = (cmpLeft qs).map (fun r : Int => -r) := by
  intro qs
  induction qs with
  | nil => rfl
  | cons q qs ih =>
      cases hq : pyIntPart q with
      | error e => simp [cmpRight, cmpLeft, hq, Except.map]
      | ok b =>
          rcases lt_trichotomy b 0 with h | h | h
          · have h0 : ¬ (0:Int) < b := by omega
            simp only [cmpRight, cmpLeft, hq, if_neg h0, if_pos h]
            simp [Except.map]
          · subst h
            simp only [cmpRight, cmpLeft, hq, lt_irrefl, if_false]
            exact ih
          · have h0 : ¬ b < (0:Int) := by omega
            simp only [cmpRight, cmpLeft, hq, if_pos h, if_neg h0]
            simp [Except.map]

theorem cmpParts_comm :
    ∀ ps qs, cmpParts qs ps = (cmpParts ps qs).map (fun r : Int => -r) := by
  intro ps
  induction ps with
  | nil =>
      intro qs
      rw [cmpParts_nil_right, cmpParts_nil_left, cmpRight_map_neg qs]
      cases cmpLeft qs <;> simp [Except.map]
  | cons p ps ih =>
      intro qs
      cases qs with
      | nil =>
          rw [cmpParts_nil_left, cmpParts_nil_right]
          exact cmpRight_map_neg (p :: ps)
      | cons q qs' =>
          cases hp : pyIntPart p with
          | error e =>
              cases hq : pyIntPart q with
              | error e' =>
                  have he : e = "ValueError" := pyIntPart_error_eq hp
                  have he' : e' = "ValueError" := pyIntPart_error_eq hq
                  subst he
                  subst he'
                  simp [cmpParts, hp, hq, Except.map]
              | ok b => simp [cmpParts, hp, hq, Except.map]
          | ok a =>
              cases hq : pyIntPart q with
              | error e => simp [cmpParts, hp, hq, Except.map]
              | ok b =>
                  rcases lt_trichotomy a b with h | h | h
                  · have h1 : ¬ b < a := by omega
                    simp only [cmpParts, hp, hq, if_pos h, if_neg h1]
                    simp [h, Except.map]
                  · subst h
                    simp only [cmpParts, hp, hq, lt_irrefl, if_false]
                    exact ih qs'
                  · have h1 : ¬ a < b := by omega
                    simp only [cmpParts, hp, hq, if_pos h, if_neg h1]
                    all_goals simp [Except.map]

theorem cmpLeft_append_zero (ps : List (List Char)) :
    cmpLeft (ps ++ [['0']]) = cmpLeft ps := by
  induction ps with
  | nil => rfl
  | cons p ps ih =>
      cases hp : pyIntPart p with
      | error e => simp [cmpLeft, hp]
      | ok a => simp [cmpLeft, hp, ih]

theorem cmpParts_singleton_zero_left (qs : List (List Char)) :
    cmpParts [['0']] qs = cmpRight qs := by
  cases qs with
  | nil => rfl
  | cons q qs =>
      cases hq : pyIntPart q with
      | error e => simp [cmpParts, pyIntPart_zero, hq, cmpRight]
      | ok b =>
          simp [cmpParts, pyIntPart_zero, hq, cmpRight, cmpParts_nil_left]

theorem cmpParts_append_zero_left :
    ∀ ps qs, cmpParts (ps ++ [['0']]) qs = cmpParts ps qs := by
  intro ps
  induction ps with
  | nil =>
      intro qs
      rw [List.nil_append, cmpParts_singleton_zero_left, cmpParts_nil_left]
  | cons p ps ih =>
      intro qs
      cases qs with
      | nil =>
          rw [cmpParts_nil_right, cmpParts_nil_right]
          exact cmpLeft_append_zero (p :: ps)
      | cons q qs' =>
          cases hp : pyIntPart p with
          | error e => simp [cmpParts, hp]
          | ok a =>
              cases hq : pyIntPart q with
              | error e => simp [cmpParts, hp, hq]
              | ok b => simp [cmpParts, hp, hq, ih]

theorem cmpParts_append_zero_right (ps qs : List (List Char)) :
    cmpParts ps (qs ++ [['0']]) = cmpParts ps qs := by
  rw [cmpParts_comm (qs ++ [['0']]) ps, cmpParts_append_zero_left,
    ← cmpParts_comm qs ps]

theorem dropWhileV_append_dot_zero (xs : List Char) :
    List.dropWhile (fun c => c = 'v') (xs ++ ['.', '0']) =
      List.dropWhile (fun c => c = 'v') xs ++ ['.', '0'] := by
  induction xs with
  | nil => rfl
  | cons c cs ih =>
      by_cases h : c = 'v'
      · subst h
        simp [List.dropWhile_cons, ih]
      · simp [List.dropWhile_cons, h]

theorem lstripV_v_prepend (s : String) : lstripV ("v" ++ s) = lstripV s := by
  have h : ("v" ++ s).data = 'v' :: s.data := by
    rw [String.data_append]
    rfl
  simp [lstripV, h, List.dropWhile_cons]

theorem lstripV_append_dot_zero (s : String) :
    (lstripV (s ++ ".0")).data = (lstripV s).data ++ ['.', '0'] := by
  have h : (s ++ ".0").data = s.data ++ ['.', '0'] := by
    rw [String.data_append]
  simp only [lstripV, h]
  exact dropWhileV_append_dot_zero s.data

theorem splitDot_ne_nil : ∀ xs, splitDot xs ≠ []
  | [] => by simp [splitDot]
  | c :: cs => by
      by_cases h : c = '.'
      · simp [splitDot, h]
      · simp only [splitDot, if_neg h]
        cases hs : splitDot cs with
        | nil => exact absurd hs (splitDot_ne_nil cs)
        | cons p ps => simp

theorem splitDot_append_dot_zero :
    ∀ xs, splitDot (xs ++ ['.', '0']) = splitDot xs ++ [['0']] := by
  intro xs
  induction xs with
  | nil => rfl
  | cons c cs ih =>
      by_cases h : c = '.'
      · subst h
        simp [splitDot, ih]
      · cases hs : splitDot cs with
        | nil => exact absurd hs (splitDot_ne_nil cs)
        | cons p ps => simp [splitDot, if_neg h, ih, hs]

theorem version_compare_unfold (v1 v2 : String) :
    version_compare v1 v2 =
      cmpParts (splitDot (lstripV v1).data) (splitDot (lstripV v2).data) :=
  rfl

/-- C9: `version_compare` ignores a leading `'v'` and treats absent
trailing components as zero: prefixing either argument with `'v'` or
appending a `".0"` component leaves the result unchanged (in particular
`version_compare "v1.2" "1.2.0" = 0`), and swapping the arguments negates
the result. -/
theorem version_compare_props (v1 v2 : String) :
    version_compare ("v" ++ v1) v2 = version_compare v1 v2 ∧
    version_compare v1 ("v" ++ v2) = version_compare v1 v2 ∧
    version_compare (v1 ++ ".0") v2 = version_compare v1 v2 ∧
    version_compare v1 (v2 ++ ".0") = version_compare v1 v2 ∧
    version_compare v2 v1 = (version_compare v1 v2).map (fun r : Int => -r) ∧
    version_compare "v1.2" "1.2.0" = Except.ok 0 := by
  refine ⟨?_, ?_, ?_, ?_, ?_, ?_⟩
  · simp [version_compare, lstripV_v_prepend]
  · simp [version_compare, lstripV_v_prepend]
  · rw [version_compare_unfold, lstripV_append_dot_zero,
      splitDot_append_dot_zero, cmpParts_append_zero_left,
      ← version_compare_unfold]
  · rw [version_compare_unfold v1 (v2 ++ ".0"), lstripV_append_dot_zero,
      splitDot_append_dot_zero, cmpParts_append_zero_right,
      ← version_compare_unfold]
  · exact cmpParts_comm _ _
  · decide

/-! ### Lemmas and claim theorem for `validate_structure` -/

theorem checkSubkeys_eq_find? (present : List String) (key : String)
    (sks : List String) :
    checkSubkeys present key sks =
      (sks.find? (fun k => !present.contains k)).map
        (fun sk => (false, missingKeyMsg sk key)) := by
  induction sks with
  | nil => rfl
  | cons sk rest ih =>
      by_cases h : sk ∈ present
      · simp [checkSubkeys, h, List.find?, ih]
      · simp [checkSubkeys, h, List.find?]

/-- C10: `validate_structure(dict_data)` returns `(True, "Valid
structure")` exactly when the mapping has a `"user"` section containing
all of `"domain"`, `"email"`, `"name"`, `"pass"`; a missing section or a
missing key yields `False` paired with the message naming the first
missing section or key. (The function performs only membership tests, so
the input mapping is never modified.) -/
theorem validate_structure_spec (d : List (String × List String)) :
    (validate_structure d = (true, "Valid structure") ↔
      hasTopKey d "user" = true ∧
        ∀ sk ∈ ["domain", "email", "name", "pass"],
          (subKeys d "user").contains sk = true) ∧
    (hasTopKey d "user" = false →
      validate_structure d = (false, missingSectionMsg "user")) ∧
    (∀ sk, hasTopKey d "user" = true →
      ["domain", "email", "name", "pass"].find?
          (fun k => !(subKeys d "user").contains k) = some sk →
      validate_structure d = (false, missingKeyMsg sk "user")) := by
  by_cases hu : hasTopKey d "user" = true
  · cases hf : ["domain", "email", "name", "pass"].find?
        (fun k => !(subKeys d "user").contains k) with
    | none =>
        have hcs : checkSubkeys (subKeys d "user") "user"
            ["domain", "email", "name", "pass"] = none := by
          rw [checkSubkeys_eq_find?, hf]
          rfl
        have hval : validate_structure d = (true, "Valid structure") := by
          simp [validate_structure, hu, hcs]
        refine ⟨?_, ?_, ?_⟩
        · simp only [hval, hu, true_and, true_iff]
          intro sk hsk
          have h := List.find?_eq_none.mp hf sk hsk
          simpa using h
        · intro h
          rw [h] at hu
          exact absurd hu (by simp)
        · intro sk _ hsk
          exact absurd hsk (by simp)
    | some sk0 =>
        have hcs : checkSubkeys (subKeys d "user") "user"
            ["domain", "email", "name", "pass"] =
            some (false, missingKeyMsg sk0 "user") := by
          rw [checkSubkeys_eq_find?, hf]
          rfl
        have hval : validate_structure d = (false, missingKeyMsg sk0 "user") := by
          simp [validate_structure, hu, hcs]
        refine ⟨?_, ?_, ?_⟩
        · constructor
          · intro h
            rw [hval] at h
            exact absurd (congrArg Prod.fst h) (by simp)
          · rintro ⟨-, hall⟩
            have hmem := List.mem_of_find?_eq_some hf
            have hp := List.find?_some hf
            have hc := hall sk0 hmem
            rw [hc] at hp
            exact absurd hp (by simp)
        · intro h
          rw [h] at hu
          exact absurd hu (by simp)
        · intro sk _ hsk
          injection hsk with h'
          subst h'
          exact hval
  · have hval : validate_structure d = (false, missingSectionMsg "user") := by
      simp [validate_structure, hu]
    refine ⟨?_, ?_, ?_⟩
    · constructor
      · intro h
        rw [hval] at h
        exact absurd (congrArg Prod.fst h) (by simp)
      · rintro ⟨h, -⟩
        exact absurd h hu
    · intro _
      exact hval
    · intro sk hu' _
      exact absurd hu' hu

theorem validate_structure_spec_witness :
    validate_structure [("user", ["domain", "name", "pass"])] =
      (false, missingKeyMsg "email" "user") :=
  (validate_structure_spec [("user", ["domain", "name", "pass"])]).2.2
    "email" (by decide) (by decide)
